import Mathlib

/-!
Verification of the CloudWatch batching/flush/token core of mdsol/logspout.

The Go code is shallowly embedded: the `CloudWatchManager`'s `batches` map
becomes an association list from container ID to `Batch`; the remote
`PutLogEvents` call and the stream-provisioning call become oracle parameters
supplied by the environment; Go's nil-pointer dereference (reachable when a
handler is invoked for a container with no registered batch) and Go's
self-deadlock (re-locking a non-reentrant mutex the handler already holds)
are modelled by an `Option` result whose `none` stands for any such stuck
branch in which the operation never completes normally.
`time.Now().UnixNano() / 1000000` becomes an explicit `now : Int` parameter.
-/

namespace Logspout

/-- One stored CloudWatch log event (`logs.InputLogEvent`): the message text
and its timestamp in milliseconds since the Unix epoch. -/
structure InputLogEvent where
  message : String
  timestamp : Int
deriving DecidableEq

/-- Modelled from the spec: the `Log` type produced by the attach manager is
not under src/ (the code only reads its `ID` and `Data` fields); the spec's
`LogEvents` interface is `{sourceID, payloadBytes, timestamp}`, so `Log`
carries the source id, the payload string and a timestamp of its own. -/
structure Log where
  id : String
  data : String
  timestamp : Int
deriving DecidableEq

/-- A batch of pending CloudWatch Log events for a single container
(`Batch` in the Go source). -/
structure Batch where
  groupName : String
  streamName : String
  token : String
  bytes : Int
  logs : List InputLogEvent
deriving DecidableEq

/-- `const maxBatchLength = 1000` (messages). -/
def maxBatchLength : Nat := 1000

/-- `const maxBatchSize = 32768` (bytes). -/
def maxBatchSize : Int := 32768

/-- `const maxBatchAge = 10` (seconds). -/
def maxBatchAge : Nat := 10

/-- `Batch.messageSize`: byte count accounted for a log message,
`len([]byte(dockerLog.Data)) + 28`. -/
def Batch.messageSize (_batch : Batch) (dockerLog : Log) : Int :=
  (dockerLog.data.utf8ByteSize : Int) + 28

/-- `Batch.AddEvent`: appends `InputLogEvent{dockerLog.Data, now}` to the
batch and adds `messageSize` to the running byte total. The timestamp stored
is the wall clock `now` (milliseconds), not anything carried by the log. -/
def Batch.AddEvent (batch : Batch) (now : Int) (dockerLog : Log) : Batch :=
  { batch with
    logs := batch.logs ++ [{ message := dockerLog.data, timestamp := now }],
    bytes := batch.bytes + batch.messageSize dockerLog }

/-- `Batch.messageFits`: `(len(batch.logs) < maxBatchLength) && (newSize <= maxBatchSize)`
where `newSize = batch.bytes + batch.messageSize(dockerLog)`. -/
def Batch.messageFits (batch : Batch) (dockerLog : Log) : Bool :=
  decide (batch.logs.length < maxBatchLength) &&
    decide (batch.bytes + batch.messageSize dockerLog ≤ maxBatchSize)

/-- The `batches` map of the `CloudWatchManager`, as an association list from
container ID to its current batch (Go map semantics: at most one live entry
per key; iteration order is arbitrary, here the list order). -/
abbrev Registry := List (String × Batch)

/-- Map lookup `cw.batches[ID]`: `none` models the nil pointer Go returns
for a missing key. -/
def rlookup (m : Registry) (id : String) : Option Batch :=
  match m with
  | [] => none
  | (k, b) :: rest => if k = id then some b else rlookup rest id

/-- Map deletion `delete(cw.batches, ID)`. -/
def rerase (m : Registry) (id : String) : Registry :=
  match m with
  | [] => []
  | (k, b) :: rest => if k = id then rerase rest id else (k, b) :: rerase rest id

/-- Map assignment `cw.batches[ID] = &Batch{...}`. -/
def rinsert (m : Registry) (id : String) (b : Batch) : Registry :=
  (id, b) :: rerase m id

/-- The key set of the map, for sweep iteration. -/
def rkeys (m : Registry) : List String := m.map Prod.fst

/-- The remote `PutLogEvents(events, group, stream, token)` call, supplied by
the environment: `some nextToken` on success, `none` on error. -/
abbrev Put := List InputLogEvent → String → String → String → Option String

/-- `submitBatchForID`: looks up the batch (dereferencing nil — `none` —
when absent, as `len(batch.logs)` does in Go); if non-empty, submits it with
its current token; on success installs a fresh empty batch carrying the
returned token; on error returns the error (`false`) leaving the map
untouched; an empty batch is left in place with no call made. -/
def submitBatchForID (put : Put) (m : Registry) (id : String) :
    Option (Registry × Bool) :=
  match rlookup m id with
  | none => none
  | some batch =>
    if 0 < batch.logs.length then
      match put batch.logs batch.groupName batch.streamName batch.token with
      | none => some (m, false)
      | some nextToken =>
          some (rinsert m id
            { groupName := batch.groupName, streamName := batch.streamName,
              token := nextToken, bytes := 0, logs := [] }, true)
    else
      some (m, true)

/-- `HandleAttachEvent`: if no batch is registered for the container, asks
the provisioner (`getStreamToken`) for the stream's sequence token and
installs a fresh batch carrying it; on a provisioning error (`prov = none`)
the Go code logs and still installs the batch with the empty token the
failed call returned. An existing batch is left untouched. -/
def HandleAttachEvent (prov : Option String) (m : Registry)
    (id group stream : String) : Registry :=
  match rlookup m id with
  | some _ => m
  | none =>
      rinsert m id
        { groupName := group, streamName := stream,
          token := prov.getD "", bytes := 0, logs := [] }

/-- `HandleDetachEvent`: submits the container's batch (logging any error)
and deletes the registry entry unconditionally. `none` models the nil
dereference inside `submitBatchForID` when no batch is registered. -/
def HandleDetachEvent (put : Put) (m : Registry) (id : String) :
    Option Registry :=
  match submitBatchForID put m id with
  | none => none
  | some (m2, _err) => some (rerase m2 id)

/-- `HandleLogEvent`: routes a log line to its container's batch, holding the
batch's own lock throughout (`batch.Lock()` at the top). The first `none`
models the panic of that `Lock()` on the nil batch of an unregistered
container. If the message fits it is appended; otherwise the batch is
submitted first — on submission error the event is dropped and the registry
is left as the failed submission left it. On success Go re-reads
`newBatch := cw.batches[ID]` and calls `newBatch.Lock()`: the submission
replaces the map entry exactly when the old batch was non-empty, so for an
empty batch `newBatch` is the very `*Batch` whose non-reentrant mutex is
already held and the code self-deadlocks — modelled as `none`; only for a
non-empty old batch is `newBatch` a fresh object, and the event is appended
to it. -/
def HandleLogEvent (put : Put) (now : Int) (m : Registry) (logEvent : Log) :
    Option Registry :=
  match rlookup m logEvent.id with
  | none => none
  | some batch =>
    if batch.messageFits logEvent then
      some (rinsert m logEvent.id (batch.AddEvent now logEvent))
    else
      match submitBatchForID put m logEvent.id with
      | none => none
      | some (m2, false) => some m2
      | some (m2, true) =>
        match rlookup m2 logEvent.id with
        | none => none
        | some newBatch =>
            if batch.logs.length = 0 then
              none
            else
              some (rinsert m2 logEvent.id (newBatch.AddEvent now logEvent))

/-- One iteration of the sweep loop body for a single container ID.
`sweepForOldBatches` ignores the error result of `submitBatchForID`; the
`none` (nil-dereference) branch cannot arise because the sweep only visits
keys present in the map, and is mapped to "no change". -/
def sweepStep (put : Put) (acc : Registry) (id : String) : Registry :=
  match submitBatchForID put acc id with
  | none => acc
  | some (m2, _err) => m2

/-- `sweepForOldBatches`: submits every (non-empty) batch in the map. -/
def sweepForOldBatches (put : Put) (m : Registry) : Registry :=
  (rkeys m).foldl (sweepStep put) m

/-! ### Registry lemmas -/

theorem rlookup_rerase (m : Registry) (id id' : String) :
    rlookup (rerase m id) id' = if id' = id then none else rlookup m id' := by
  induction m with
  | nil => simp [rerase, rlookup]
  | cons p rest ih =>
    obtain ⟨k, b⟩ := p
    by_cases hk : k = id
    · by_cases h' : id' = id
      · simpa [rerase, rlookup, hk, h'] using ih
      · have hk' : ¬ id = id' := fun hcontra => h' hcontra.symm
        simpa [rerase, rlookup, hk, h', hk'] using ih
    · by_cases hk' : k = id'
      · have h' : ¬ id' = id := fun hcontra => hk (hk'.trans hcontra)
        simp [rerase, rlookup, hk, hk', h']
      · simpa [rerase, rlookup, hk, hk'] using ih

theorem rlookup_rinsert (m : Registry) (id id' : String) (b : Batch) :
    rlookup (rinsert m id b) id' = if id' = id then some b else rlookup m id' := by
  by_cases h : id' = id
  · simp [rinsert, rlookup, h]
  · simp [rinsert, rlookup, h, rlookup_rerase]
    intro hcontra
    exact absurd hcontra.symm h

theorem mem_rkeys_of_rlookup (m : Registry) (id : String) (b : Batch)
    (h : rlookup m id = some b) : id ∈ rkeys m := by
  induction m with
  | nil => simp [rlookup] at h
  | cons p rest ih =>
    obtain ⟨k, c⟩ := p
    by_cases hk : k = id
    · simp [rkeys, hk]
    · simp only [rlookup, if_neg hk] at h
      simpa [rkeys] using Or.inr (by simpa [rkeys] using ih h)

theorem rlookup_isSome_of_mem_rkeys (m : Registry) (id : String)
    (h : id ∈ rkeys m) : (rlookup m id).isSome := by
  induction m with
  | nil => simp [rkeys] at h
  | cons p rest ih =>
    obtain ⟨k, c⟩ := p
    by_cases hk : k = id
    · simp [rlookup, hk]
    · simp only [rkeys, List.map_cons, List.mem_cons] at h
      rcases h with h | h
      · exact absurd h.symm hk
      · simpa [rlookup, hk] using ih (by simpa [rkeys] using h)

/-! ### Characterization of `submitBatchForID` -/

theorem submit_of_absent (put : Put) (m : Registry) (id : String)
    (h : rlookup m id = none) : submitBatchForID put m id = none := by
  simp [submitBatchForID, h]

theorem submit_of_empty (put : Put) (m : Registry) (id : String) (b : Batch)
    (h : rlookup m id = some b) (he : b.logs = []) :
    submitBatchForID put m id = some (m, true) := by
  simp [submitBatchForID, h, he]

theorem submit_of_put_fail (put : Put) (m : Registry) (id : String) (b : Batch)
    (h : rlookup m id = some b) (hne : b.logs ≠ [])
    (hput : put b.logs b.groupName b.streamName b.token = none) :
    submitBatchForID put m id = some (m, false) := by
  have hlen : 0 < b.logs.length := List.length_pos.mpr hne
  simp [submitBatchForID, h, hlen, hput]

theorem submit_of_put_ok (put : Put) (m : Registry) (id : String) (b : Batch)
    (t : String) (h : rlookup m id = some b) (hne : b.logs ≠ [])
    (hput : put b.logs b.groupName b.streamName b.token = some t) :
    submitBatchForID put m id =
      some (rinsert m id
        { groupName := b.groupName, streamName := b.streamName,
          token := t, bytes := 0, logs := [] }, true) := by
  have hlen : 0 < b.logs.length := List.length_pos.mpr hne
  simp [submitBatchForID, h, hlen, hput]

theorem submit_isSome (put : Put) (m : Registry) (id : String) (b : Batch)
    (h : rlookup m id = some b) :
    ∃ p, submitBatchForID put m id = some p := by
  by_cases hne : b.logs = []
  · exact ⟨(m, true), submit_of_empty put m id b h hne⟩
  · cases hput : put b.logs b.groupName b.streamName b.token with
    | none => exact ⟨(m, false), submit_of_put_fail put m id b h hne hput⟩
    | some t =>
        exact ⟨_, submit_of_put_ok put m id b t h hne hput⟩

theorem submit_fst_cases (put : Put) (m : Registry) (id : String) (b : Batch)
    (p : Registry × Bool) (h : rlookup m id = some b)
    (hp : submitBatchForID put m id = some p) :
    p.1 = m ∨ ∃ t, put b.logs b.groupName b.streamName b.token = some t ∧
      p.1 = rinsert m id
        { groupName := b.groupName, streamName := b.streamName,
          token := t, bytes := 0, logs := [] } := by
  by_cases hne : b.logs = []
  · rw [submit_of_empty put m id b h hne] at hp
    exact Or.inl (congrArg Prod.fst (Option.some.inj hp)).symm
  · cases hput : put b.logs b.groupName b.streamName b.token with
    | none =>
        rw [submit_of_put_fail put m id b h hne hput] at hp
        exact Or.inl (congrArg Prod.fst (Option.some.inj hp)).symm
    | some t =>
        rw [submit_of_put_ok put m id b t h hne hput] at hp
        exact Or.inr ⟨t, rfl,
          (congrArg Prod.fst (Option.some.inj hp)).symm⟩

/-! ### Sweep lemmas -/

theorem sweepStep_rlookup_ne (put : Put) (acc : Registry) (j i : String)
    (hne : i ≠ j) : rlookup (sweepStep put acc j) i = rlookup acc i := by
  cases hl : rlookup acc j with
  | none => simp [sweepStep, submit_of_absent put acc j hl]
  | some b =>
    obtain ⟨p, hp⟩ := submit_isSome put acc j b hl
    rcases submit_fst_cases put acc j b p hl hp with h1 | ⟨t, _, h1⟩
    · simp [sweepStep, hp, h1]
    · simp [sweepStep, hp, h1, rlookup_rinsert, hne]

theorem foldl_sweepStep_not_mem (put : Put) (ids : List String)
    (acc : Registry) (i : String) (h : i ∉ ids) :
    rlookup (ids.foldl (sweepStep put) acc) i = rlookup acc i := by
  induction ids generalizing acc with
  | nil => rfl
  | cons j rest ih =>
    have hij : i ≠ j := fun hcontra => h (hcontra ▸ List.mem_cons_self j rest)
    have hrest : i ∉ rest := fun hcontra => h (List.mem_cons_of_mem j hcontra)
    rw [List.foldl_cons, ih (sweepStep put acc j) hrest,
      sweepStep_rlookup_ne put acc j i hij]

theorem sweepStep_allfail (put : Put) (acc : Registry) (id : String)
    (hput : ∀ lgs g s tk, put lgs g s tk = none) :
    sweepStep put acc id = acc := by
  cases hl : rlookup acc id with
  | none => simp [sweepStep, submit_of_absent put acc id hl]
  | some b =>
    by_cases hne : b.logs = []
    · simp [sweepStep, submit_of_empty put acc id b hl hne]
    · simp [sweepStep, submit_of_put_fail put acc id b hl hne (hput _ _ _ _)]

theorem foldl_sweepStep_allfail (put : Put) (ids : List String)
    (acc : Registry) (hput : ∀ lgs g s tk, put lgs g s tk = none) :
    ids.foldl (sweepStep put) acc = acc := by
  induction ids generalizing acc with
  | nil => rfl
  | cons j rest ih =>
    rw [List.foldl_cons, sweepStep_allfail put acc j hput, ih acc]

/-! ### Claim theorems -/

/-- C3: `messageFits` returns `false` iff appending the event would push the
batch's byte total (counting payload-byte-length + 28 per event) above 32768
or its event count above 1000, and returns `true` otherwise. As a pure Lean
function of the batch it mutates nothing. -/
theorem C3_messageFits_iff (b : Batch) (l : Log) :
    b.messageFits l = false ↔
      (32768 < b.bytes + ((l.data.utf8ByteSize : Int) + 28) ∨
        1000 < b.logs.length + 1) := by
  simp only [Batch.messageFits, Batch.messageSize, maxBatchLength, maxBatchSize,
    Bool.and_eq_false_iff, decide_eq_false_iff_not, not_lt, not_le]
  omega

/-- C4: for a source whose batch is non-empty, after a flush whose submission
succeeds with token `t`, the registry maps the source to a new empty batch
(zero events, zero bytes) carrying exactly `t` and the old destination group
and stream; other sources' entries are untouched and the old events are gone
from the registry (never re-submitted). If the batch is empty, the result is
`(m, true)` for every oracle — no submission call is made and nothing
changes. -/
theorem C4_flush_success (put : Put) (m : Registry) (id : String) (b : Batch)
    (h : rlookup m id = some b) :
    (b.logs = [] → submitBatchForID put m id = some (m, true)) ∧
    (∀ t, b.logs ≠ [] → put b.logs b.groupName b.streamName b.token = some t →
      submitBatchForID put m id =
        some (rinsert m id
          { groupName := b.groupName, streamName := b.streamName,
            token := t, bytes := 0, logs := [] }, true) ∧
      rlookup (rinsert m id
          { groupName := b.groupName, streamName := b.streamName,
            token := t, bytes := 0, logs := [] }) id =
        some { groupName := b.groupName, streamName := b.streamName,
               token := t, bytes := 0, logs := [] } ∧
      ∀ id2, id2 ≠ id →
        rlookup (rinsert m id
          { groupName := b.groupName, streamName := b.streamName,
            token := t, bytes := 0, logs := [] }) id2 = rlookup m id2) := by
  refine ⟨fun he => submit_of_empty put m id b h he, fun t hne hput => ⟨?_, ?_, ?_⟩⟩
  · exact submit_of_put_ok put m id b t h hne hput
  · simp [rlookup_rinsert]
  · intro id2 hne2
    simp [rlookup_rinsert, hne2]

/-- C5: when the submission call fails during a standalone (sweep-triggered)
flush, the flush returns the error without mutating the registry, and — when
every submission fails — a whole sweep pass leaves the registry exactly as it
was, so the next sweep tick retries the identical submission. -/
theorem C5_sweep_fail_no_mutation (put : Put) (m : Registry) (id : String)
    (b : Batch) (h : rlookup m id = some b) (hne : b.logs ≠ [])
    (hput : put b.logs b.groupName b.streamName b.token = none) :
    submitBatchForID put m id = some (m, false) ∧
      ((∀ lgs g s tk, put lgs g s tk = none) →
        sweepForOldBatches put m = m) := by
  exact ⟨submit_of_put_fail put m id b h hne hput,
    fun hall => foldl_sweepStep_allfail put (rkeys m) m hall⟩

/-- C7: the code does NOT drop an event whose source has no registered batch:
`HandleLogEvent` dereferences the nil `*Batch` (`batch.Lock()`), modelled
here by the `none` (panic) branch — evaluated at the failing input of an
event arriving with an empty registry. -/
theorem C7_unregistered_event_hits_nil_deref :
    HandleLogEvent (fun _ _ _ _ => none) 0 []
      { id := "c", data := "x", timestamp := 0 } = none := rfl

/-- C8: for every registered source, `HandleDetachEvent` removes the
registry entry unconditionally — the handler never takes the nil-dereference
branch and, whatever the submission oracle answers (success or failure), the
resulting registry has no batch for that source. -/
theorem C8_detach_removes_entry (put : Put) (m : Registry) (id : String)
    (b : Batch) (h : rlookup m id = some b) :
    HandleDetachEvent put m id ≠ none ∧
      ∀ m2, HandleDetachEvent put m id = some m2 → rlookup m2 id = none := by
  obtain ⟨p, hp⟩ := submit_isSome put m id b h
  constructor
  · simp [HandleDetachEvent, hp]
  · intro m2 hm2
    simp only [HandleDetachEvent, hp] at hm2
    rw [← Option.some.inj hm2, rlookup_rerase]
    simp

/-- C9: invoking `HandleDetachEvent` for a source with no registry entry is
not handled gracefully: the flush helper reads `len(batch.logs)` through a
nil batch pointer, so the undefined (panic) branch — `none` — is reached;
under the precondition that the source is registered the branch is never
taken. -/
theorem C9_detach_unregistered_nil_deref :
    (∀ (put : Put) (m : Registry) (id : String),
      rlookup m id = none → HandleDetachEvent put m id = none) ∧
    (∀ (put : Put) (m : Registry) (id : String) (b : Batch),
      rlookup m id = some b → HandleDetachEvent put m id ≠ none) := by
  constructor
  · intro put m id h
    simp [HandleDetachEvent, submit_of_absent put m id h]
  · intro put m id b h
    obtain ⟨p, hp⟩ := submit_isSome put m id b h
    simp [HandleDetachEvent, hp]

theorem sweepStep_self_cases (put : Put) (acc : Registry) (id : String)
    (b : Batch) (h : rlookup acc id = some b) :
    sweepStep put acc id = acc ∨
      ∃ t, put b.logs b.groupName b.streamName b.token = some t ∧
        sweepStep put acc id = rinsert acc id
          { groupName := b.groupName, streamName := b.streamName,
            token := t, bytes := 0, logs := [] } := by
  by_cases hne : b.logs = []
  · exact Or.inl (by simp [sweepStep, submit_of_empty put acc id b h hne])
  · cases hput : put b.logs b.groupName b.streamName b.token with
    | none =>
        exact Or.inl (by simp [sweepStep, submit_of_put_fail put acc id b h hne hput])
    | some t =>
        exact Or.inr ⟨t, rfl,
          by simp [sweepStep, submit_of_put_ok put acc id b t h hne hput]⟩

theorem sweep_token_cases (put : Put) (m : Registry) (id : String) (b : Batch)
    (hnd : (rkeys m).Nodup) (h : rlookup m id = some b) :
    ∃ b2, rlookup (sweepForOldBatches put m) id = some b2 ∧
      (b2 = b ∨ (b2.logs = [] ∧ b2.groupName = b.groupName ∧
        b2.streamName = b.streamName ∧
        put b.logs b.groupName b.streamName b.token = some b2.token)) := by
  obtain ⟨pre, post, hsplit⟩ :=
    List.append_of_mem (mem_rkeys_of_rlookup m id b h)
  have hnd2 : (pre ++ id :: post).Nodup := hsplit ▸ hnd
  have hdisj := List.disjoint_of_nodup_append hnd2
  have hpre : id ∉ pre := fun hc => hdisj hc (List.mem_cons_self id post)
  have hpost : id ∉ post := (List.nodup_cons.mp (List.nodup_append.mp hnd2).2.1).1
  have hfold : sweepForOldBatches put m =
      post.foldl (sweepStep put)
        (sweepStep put (pre.foldl (sweepStep put) m) id) := by
    rw [sweepForOldBatches, hsplit, List.foldl_append, List.foldl_cons]
  have hA : rlookup (pre.foldl (sweepStep put) m) id = some b := by
    rw [foldl_sweepStep_not_mem put pre m id hpre]; exact h
  rcases sweepStep_self_cases put (pre.foldl (sweepStep put) m) id b hA with
    hstep | ⟨t, hput, hstep⟩
  · refine ⟨b, ?_, Or.inl rfl⟩
    rw [hfold, hstep, foldl_sweepStep_not_mem put post _ id hpost, hA]
  · refine ⟨⟨b.groupName, b.streamName, t, 0, []⟩, ?_,
      Or.inr ⟨rfl, rfl, rfl, hput⟩⟩
    rw [hfold, hstep, foldl_sweepStep_not_mem put post _ id hpost,
      rlookup_rinsert]
    simp

/-- C1: the continuation-token chain. (1) A non-empty batch is always
submitted with exactly its current token, and a failed submission leaves the
registry — hence the token — untouched, while a successful one installs
exactly the returned token on the replacement batch; (2) an empty batch is
never submitted and nothing changes; (3) appending an event never changes a
batch's token; (4) attach seeds a new batch with the token obtained from the
stream-open (provisioning) call and never touches an existing batch;
(5) `HandleLogEvent` leaves the live batch's token unchanged unless a
successful submission (made with that very token) installed the returned
one; (6) a sweep pass leaves every batch untouched except those replaced by
a successful submission carrying the token that submission returned. -/
theorem C1_token_chain :
    (∀ (put : Put) (m : Registry) (id : String) (b : Batch),
      rlookup m id = some b → b.logs ≠ [] →
      (put b.logs b.groupName b.streamName b.token = none →
        submitBatchForID put m id = some (m, false)) ∧
      (∀ t, put b.logs b.groupName b.streamName b.token = some t →
        submitBatchForID put m id =
          some (rinsert m id
            { groupName := b.groupName, streamName := b.streamName,
              token := t, bytes := 0, logs := [] }, true))) ∧
    (∀ (put : Put) (m : Registry) (id : String) (b : Batch),
      rlookup m id = some b → b.logs = [] →
      submitBatchForID put m id = some (m, true)) ∧
    (∀ (b : Batch) (now : Int) (l : Log),
      (b.AddEvent now l).token = b.token) ∧
    (∀ (prov : Option String) (m : Registry) (id group stream : String),
      (rlookup m id = none →
        rlookup (HandleAttachEvent prov m id group stream) id =
          some { groupName := group, streamName := stream,
                 token := prov.getD "", bytes := 0, logs := [] }) ∧
      (∀ b, rlookup m id = some b →
        HandleAttachEvent prov m id group stream = m)) ∧
    (∀ (put : Put) (now : Int) (m m2 : Registry) (l : Log) (b b2 : Batch),
      rlookup m l.id = some b → HandleLogEvent put now m l = some m2 →
      rlookup m2 l.id = some b2 →
      b2.token = b.token ∨
        put b.logs b.groupName b.streamName b.token = some b2.token) ∧
    (∀ (put : Put) (m : Registry) (id : String) (b : Batch),
      (rkeys m).Nodup → rlookup m id = some b →
      ∃ b2, rlookup (sweepForOldBatches put m) id = some b2 ∧
        (b2 = b ∨ (b2.logs = [] ∧ b2.groupName = b.groupName ∧
          b2.streamName = b.streamName ∧
          put b.logs b.groupName b.streamName b.token = some b2.token))) := by
  refine ⟨?_, ?_, ?_, ?_, ?_, ?_⟩
  · intro put m id b h hne
    exact ⟨fun hput => submit_of_put_fail put m id b h hne hput,
      fun t hput => submit_of_put_ok put m id b t h hne hput⟩
  · intro put m id b h he
    exact submit_of_empty put m id b h he
  · intro b now l
    rfl
  · intro prov m id group stream
    constructor
    · intro h
      simp [HandleAttachEvent, h, rlookup_rinsert]
    · intro b h
      simp [HandleAttachEvent, h]
  · intro put now m m2 l b b2 h hrun hl2
    simp only [HandleLogEvent, h] at hrun
    by_cases hfits : b.messageFits l
    · rw [if_pos hfits] at hrun
      rw [← Option.some.inj hrun, rlookup_rinsert, if_pos rfl] at hl2
      refine Or.inl ?_
      rw [← Option.some.inj hl2]
      rfl
    · rw [if_neg hfits] at hrun
      by_cases hne : b.logs = []
      · rw [submit_of_empty put m l.id b h hne] at hrun
        simp [h, hne] at hrun
      · have hlen : ¬ (b.logs.length = 0) :=
          fun hc => hne (List.length_eq_zero.mp hc)
        cases hput : put b.logs b.groupName b.streamName b.token with
        | none =>
            rw [submit_of_put_fail put m l.id b h hne hput] at hrun
            simp only at hrun
            rw [← Option.some.inj hrun, h] at hl2
            refine Or.inl ?_
            rw [← Option.some.inj hl2]
        | some t =>
            rw [submit_of_put_ok put m l.id b t h hne hput] at hrun
            simp only [rlookup_rinsert, if_pos rfl, if_neg hlen] at hrun
            rw [← Option.some.inj hrun, rlookup_rinsert, if_pos rfl] at hl2
            refine Or.inr ?_
            rw [← Option.some.inj hl2]
            rfl
  · intro put m id b hnd h
    exact sweep_token_cases put m id b hnd h

/-! ### Batch invariant and reachability -/

/-- The batch invariant: at most 1000 stored events, at most 32768 accounted
bytes; an empty batch accounts zero bytes (true of every batch the code
constructs, and needed for the bounds to be inductive). -/
def BatchOK (b : Batch) : Prop :=
  b.logs.length ≤ maxBatchLength ∧ b.bytes ≤ maxBatchSize ∧
    (b.logs = [] → b.bytes = 0)

/-- Every batch in the registry satisfies the batch invariant. -/
def RegOK (m : Registry) : Prop :=
  ∀ id b, rlookup m id = some b → BatchOK b

/-- One observable transition of the manager: an attach, a detach, an
incoming log event whose accounted size respects the wire limit, or a sweep
tick. The oracle answers are the constructors' parameters. -/
inductive Step : Registry → Registry → Prop
  | attach (prov : Option String) (m : Registry) (id group stream : String) :
      Step m (HandleAttachEvent prov m id group stream)
  | detach (put : Put) (m m2 : Registry) (id : String) :
      HandleDetachEvent put m id = some m2 → Step m m2
  | logEvent (put : Put) (now : Int) (m m2 : Registry) (l : Log) :
      (l.data.utf8ByteSize : Int) + 28 ≤ maxBatchSize →
      HandleLogEvent put now m l = some m2 → Step m m2
  | sweep (put : Put) (m : Registry) :
      Step m (sweepForOldBatches put m)

/-- Registries reachable from the initial empty map of `NewCloudWatchManager`. -/
def Reach (m : Registry) : Prop :=
  Relation.ReflTransGen Step [] m

theorem BatchOK_fresh (g s t : String) :
    BatchOK { groupName := g, streamName := s, token := t,
              bytes := 0, logs := [] } := by
  refine ⟨by simp, by simp [maxBatchSize], fun _ => rfl⟩

theorem RegOK_rinsert (m : Registry) (id : String) (b : Batch)
    (hm : RegOK m) (hb : BatchOK b) : RegOK (rinsert m id b) := by
  intro id2 b2 h2
  rw [rlookup_rinsert] at h2
  by_cases he : id2 = id
  · rw [if_pos he] at h2
    exact (Option.some.inj h2) ▸ hb
  · rw [if_neg he] at h2
    exact hm id2 b2 h2

theorem RegOK_rerase (m : Registry) (id : String) (hm : RegOK m) :
    RegOK (rerase m id) := by
  intro id2 b2 h2
  rw [rlookup_rerase] at h2
  by_cases he : id2 = id
  · rw [if_pos he] at h2
    exact absurd h2 (by simp)
  · rw [if_neg he] at h2
    exact hm id2 b2 h2

theorem RegOK_submit (put : Put) (m : Registry) (id : String)
    (p : Registry × Bool) (hm : RegOK m)
    (hp : submitBatchForID put m id = some p) : RegOK p.1 := by
  cases hl : rlookup m id with
  | none =>
      rw [submit_of_absent put m id hl] at hp
      exact absurd hp (by simp)
  | some b =>
    rcases submit_fst_cases put m id b p hl hp with h1 | ⟨t, _, h1⟩
    · exact h1 ▸ hm
    · exact h1 ▸ RegOK_rinsert m id _ hm (BatchOK_fresh _ _ _)

theorem RegOK_sweepStep (put : Put) (acc : Registry) (id : String)
    (hm : RegOK acc) : RegOK (sweepStep put acc id) := by
  cases hp : submitBatchForID put acc id with
  | none => simpa [sweepStep, hp] using hm
  | some p =>
      have := RegOK_submit put acc id p hm hp
      simpa [sweepStep, hp] using this

theorem RegOK_foldl_sweepStep (put : Put) (ids : List String)
    (acc : Registry) (hm : RegOK acc) :
    RegOK (ids.foldl (sweepStep put) acc) := by
  induction ids generalizing acc with
  | nil => exact hm
  | cons j rest ih =>
      rw [List.foldl_cons]
      exact ih (sweepStep put acc j) (RegOK_sweepStep put acc j hm)

theorem messageFits_true_iff (b : Batch) (l : Log) :
    b.messageFits l = true ↔
      (b.logs.length < maxBatchLength ∧
        b.bytes + b.messageSize l ≤ maxBatchSize) := by
  simp [Batch.messageFits]

theorem BatchOK_AddEvent_fits (b : Batch) (now : Int) (l : Log)
    (hfits : b.messageFits l = true) : BatchOK (b.AddEvent now l) := by
  obtain ⟨hlen, hsize⟩ := (messageFits_true_iff b l).mp hfits
  refine ⟨?_, ?_, ?_⟩
  · simpa [Batch.AddEvent] using hlen
  · simpa [Batch.AddEvent] using hsize
  · intro hcontra
    simp [Batch.AddEvent] at hcontra

theorem BatchOK_AddEvent_empty (b : Batch) (now : Int) (l : Log)
    (hb : BatchOK b) (he : b.logs = [])
    (hsize : (l.data.utf8ByteSize : Int) + 28 ≤ maxBatchSize) :
    BatchOK (b.AddEvent now l) := by
  have hz : b.bytes = 0 := hb.2.2 he
  refine ⟨?_, ?_, ?_⟩
  · simp [Batch.AddEvent, he, maxBatchLength]
  · simpa [Batch.AddEvent, hz, Batch.messageSize] using hsize
  · intro hcontra
    simp [Batch.AddEvent] at hcontra

theorem RegOK_attach (prov : Option String) (m : Registry)
    (id group stream : String) (hm : RegOK m) :
    RegOK (HandleAttachEvent prov m id group stream) := by
  cases hl : rlookup m id with
  | some b => simpa [HandleAttachEvent, hl] using hm
  | none =>
      have : RegOK (rinsert m id
          { groupName := group, streamName := stream,
            token := prov.getD "", bytes := 0, logs := [] }) :=
        RegOK_rinsert m id _ hm (BatchOK_fresh _ _ _)
      simpa [HandleAttachEvent, hl] using this

theorem RegOK_detach (put : Put) (m m2 : Registry) (id : String)
    (hm : RegOK m) (hd : HandleDetachEvent put m id = some m2) :
    RegOK m2 := by
  rw [HandleDetachEvent] at hd
  cases hp : submitBatchForID put m id with
  | none => rw [hp] at hd; exact absurd hd (by simp)
  | some p =>
      obtain ⟨pm, pe⟩ := p
      rw [hp] at hd
      simp only at hd
      exact (Option.some.inj hd) ▸
        RegOK_rerase pm id (RegOK_submit put m id ⟨pm, pe⟩ hm hp)

theorem RegOK_logEvent (put : Put) (now : Int) (m m2 : Registry) (l : Log)
    (hm : RegOK m) (hsize : (l.data.utf8ByteSize : Int) + 28 ≤ maxBatchSize)
    (hrun : HandleLogEvent put now m l = some m2) : RegOK m2 := by
  cases hl : rlookup m l.id with
  | none =>
      rw [HandleLogEvent, hl] at hrun
      exact absurd hrun (by simp)
  | some b =>
    have hb : BatchOK b := hm l.id b hl
    simp only [HandleLogEvent, hl] at hrun
    by_cases hfits : b.messageFits l
    · rw [if_pos hfits] at hrun
      exact (Option.some.inj hrun) ▸
        RegOK_rinsert m l.id _ hm (BatchOK_AddEvent_fits b now l hfits)
    · rw [if_neg hfits] at hrun
      by_cases hne : b.logs = []
      · rw [submit_of_empty put m l.id b hl hne] at hrun
        simp [hl, hne] at hrun
      · have hlen : ¬ (b.logs.length = 0) :=
          fun hc => hne (List.length_eq_zero.mp hc)
        cases hput : put b.logs b.groupName b.streamName b.token with
        | none =>
            rw [submit_of_put_fail put m l.id b hl hne hput] at hrun
            simp only at hrun
            exact (Option.some.inj hrun) ▸ hm
        | some t =>
            rw [submit_of_put_ok put m l.id b t hl hne hput] at hrun
            simp only [rlookup_rinsert, if_pos rfl, if_neg hlen] at hrun
            refine (Option.some.inj hrun) ▸ ?_
            refine RegOK_rinsert _ l.id _
              (RegOK_rinsert m l.id _ hm (BatchOK_fresh _ _ _)) ?_
            exact BatchOK_AddEvent_empty _ now l (BatchOK_fresh _ _ _)
              rfl hsize

theorem RegOK_step (m m2 : Registry) (hm : RegOK m) (hstep : Step m m2) :
    RegOK m2 :=
  match hstep with
  | .attach prov m id group stream => RegOK_attach prov m id group stream hm
  | .detach put m m2 id hd => RegOK_detach put m m2 id hm hd
  | .logEvent put now m m2 l hsize hrun =>
      RegOK_logEvent put now m m2 l hm hsize hrun
  | .sweep put m => RegOK_foldl_sweepStep put (rkeys m) m hm

theorem RegOK_of_Reach (m : Registry) (hreach : Reach m) : RegOK m := by
  induction hreach with
  | refl => intro id b h; simp [rlookup] at h
  | tail _hsteps hstep ih => exact RegOK_step _ _ ih hstep

/-- C2 (amended): in every state reachable by attaches, detaches, sweeps and
log events whose accounted size (payload bytes + 28) is at most 32768, every
registered batch stores at most 1000 events and accounts at most 32768
bytes. (The size proviso is forced by the counterexample: an oversized event
is appended unconditionally after the no-op flush of an empty batch.) -/
theorem C2_reachable_batches_bounded (m : Registry) (hreach : Reach m)
    (id : String) (b : Batch) (h : rlookup m id = some b) :
    b.logs.length ≤ 1000 ∧ b.bytes ≤ 32768 := by
  have hb := RegOK_of_Reach m hreach id b h
  exact ⟨hb.1, hb.2.1⟩

/-- An always-failing submission oracle. -/
def noPut : Put := fun _ _ _ _ => none

/-- A submission oracle that always succeeds, returning token `t`. -/
def okPut (t : String) : Put := fun _ _ _ _ => some t

theorem utf8_go_replicate (n : Nat) :
    String.utf8ByteSize.go (List.replicate n 'a') = n := by
  induction n with
  | zero => rfl
  | succ k ih =>
      rw [List.replicate_succ]
      show String.utf8ByteSize.go (List.replicate k 'a') + Char.utf8Size 'a' = k + 1
      rw [ih, show Char.utf8Size 'a' = 1 from by decide]

theorem utf8ByteSize_replicate (n : Nat) :
    (String.mk (List.replicate n 'a')).utf8ByteSize = n :=
  utf8_go_replicate n

/-- A 32741-byte payload: its accounted size is 32741 + 28 = 32769 > 32768. -/
def bigData : String := String.mk (List.replicate 32741 'a')

/-- A fresh batch for container `"c"`, as installed at attach time. -/
def cFresh : Batch :=
  { groupName := "g", streamName := "s", token := "", bytes := 0, logs := [] }

/-- An oversized log event for container `"c"`. -/
def bigLog : Log := { id := "c", data := bigData, timestamp := 0 }

/-- A non-empty batch for container `"c"`: one stored 1-byte event,
29 accounted bytes, token `"T0"`. -/
def oneBatch : Batch :=
  { groupName := "g", streamName := "s", token := "T0", bytes := 29,
    logs := [{ message := "x", timestamp := 1 }] }

theorem bigLog_messageSize (b : Batch) : b.messageSize bigLog = 32769 := by
  rw [Batch.messageSize]
  show ((String.mk (List.replicate 32741 'a')).utf8ByteSize : Int) + 28 = 32769
  rw [utf8ByteSize_replicate]
  rfl

/-- The replacement batch a successful flush of `oneBatch` installs when the
submission returns token `"T1"`. -/
def freshT1 : Batch :=
  { groupName := "g", streamName := "s", token := "T1", bytes := 0, logs := [] }

/-- C2 counterexample: an oversized event (payload 32741 bytes, accounted
size 32769) never fits any batch; when the current batch is non-empty and
the event-triggered flush succeeds (returning `"T1"`), `HandleLogEvent`
appends the event unconditionally to the fresh replacement batch — a
different `*Batch` object, so no deadlock — and the registered batch then
accounts 32769 bytes, above the 32768-byte bound the claim asserts for
events of any payload size. -/
theorem C2_counterexample :
    (HandleLogEvent (okPut "T1") 0 [("c", oneBatch)] bigLog).bind
        (fun m2 => (rlookup m2 "c").map Batch.bytes) = some 32769 ∧
      ¬ ((32769 : Int) ≤ maxBatchSize) := by
  have hfits : oneBatch.messageFits bigLog = false := by
    rw [Batch.messageFits, bigLog_messageSize]
    rfl
  have h1 : rlookup [("c", oneBatch)] "c" = some oneBatch := rfl
  have hne : oneBatch.logs ≠ [] := by simp [oneBatch]
  have hsub : submitBatchForID (okPut "T1") [("c", oneBatch)] "c" =
      some (rinsert [("c", oneBatch)] "c" freshT1, true) :=
    submit_of_put_ok (okPut "T1") _ "c" oneBatch "T1" h1 hne rfl
  have hrun : HandleLogEvent (okPut "T1") 0 [("c", oneBatch)] bigLog =
      some (rinsert (rinsert [("c", oneBatch)] "c" freshT1) "c"
        (freshT1.AddEvent 0 bigLog)) := by
    simp only [HandleLogEvent, show bigLog.id = "c" from rfl, h1]
    rw [if_neg (by rw [hfits]; exact Bool.false_ne_true), hsub]
    rfl
  constructor
  · rw [hrun]
    show some ((freshT1.AddEvent 0 bigLog).bytes) = some 32769
    rw [show (freshT1.AddEvent 0 bigLog).bytes =
        freshT1.bytes + freshT1.messageSize bigLog from rfl,
      bigLog_messageSize]
    rfl
  · rw [maxBatchSize]
    omega

/-- A batch for container `"c"` that is full by event count: 1000 stored
(empty-payload) events, 28 accounted bytes each. -/
def fullBatch : Batch :=
  { groupName := "g", streamName := "s", token := "T0", bytes := 28000,
    logs := List.replicate 1000 { message := "", timestamp := 0 } }

/-- A one-byte log event for container `"c"`. -/
def smallLog : Log := { id := "c", data := "y", timestamp := 7 }

theorem fullBatch_logs_length : fullBatch.logs.length = 1000 := by
  rw [show fullBatch.logs = List.replicate 1000 { message := "", timestamp := 0 } from rfl,
    List.length_replicate]

theorem fullBatch_logs_ne_nil : fullBatch.logs ≠ [] := by
  intro hnil
  have hlen := fullBatch_logs_length
  rw [hnil] at hlen
  exact absurd hlen (by decide)

theorem fullBatch_not_fits : fullBatch.messageFits smallLog = false := by
  rw [Batch.messageFits]
  rw [show decide (fullBatch.logs.length < maxBatchLength) = false by
    rw [fullBatch_logs_length]; rfl]
  rfl

set_option maxRecDepth 8000 in
/-- C6 counterexample: an event that does not fit (the batch already holds
1000 events) arrives while every submission fails; `HandleLogEvent` returns
with the registry unchanged — container `"c"` still maps to the original
full batch with its original token, not to an empty replacement batch as
the claim asserts. -/
theorem C6_counterexample :
    HandleLogEvent noPut 5 [("c", fullBatch)] smallLog =
        some [("c", fullBatch)] ∧
      rlookup [("c", fullBatch)] "c" = some fullBatch ∧
      fullBatch.logs.length = 1000 ∧ fullBatch.token = "T0" := by
  have h1 : rlookup [("c", fullBatch)] "c" = some fullBatch := rfl
  refine ⟨?_, h1, fullBatch_logs_length, rfl⟩
  have hsub : submitBatchForID noPut [("c", fullBatch)] "c" =
      some ([("c", fullBatch)], false) :=
    submit_of_put_fail noPut _ "c" fullBatch h1 fullBatch_logs_ne_nil rfl
  simp only [HandleLogEvent, show smallLog.id = "c" from rfl, h1]
  rw [if_neg (by rw [fullBatch_not_fits]; exact Bool.false_ne_true), hsub]

/-- C6 (amended): when an event does not fit its (non-empty) batch and the
event-triggered flush fails, the event is dropped and the registry is left
entirely unchanged — the batch that failed to flush keeps its events, byte
total, token and destination; it is NOT replaced by an empty batch. -/
theorem C6_flush_fail_drops_event (put : Put) (now : Int) (m : Registry)
    (l : Log) (b : Batch) (h : rlookup m l.id = some b)
    (hfits : b.messageFits l = false) (hne : b.logs ≠ [])
    (hput : put b.logs b.groupName b.streamName b.token = none) :
    HandleLogEvent put now m l = some m := by
  simp only [HandleLogEvent, h]
  rw [if_neg (by rw [hfits]; exact Bool.false_ne_true)]
  rw [submit_of_put_fail put m l.id b h hne hput]

/-! ### Timestamping -/

/-- Repeated `AddEvent`, each append with its own wall-clock reading
(`time.Now().UnixNano() / 1000000` at the moment of that append). -/
def addEvents (b : Batch) (items : List (Int × Log)) : Batch :=
  items.foldl (fun acc p => acc.AddEvent p.1 p.2) b

theorem addEvents_logs (b : Batch) (items : List (Int × Log)) :
    (addEvents b items).logs =
      b.logs ++ items.map
        (fun p => { message := p.2.data, timestamp := p.1 }) := by
  induction items generalizing b with
  | nil => simp [addEvents]
  | cons p rest ih =>
      show (addEvents (b.AddEvent p.1 p.2) rest).logs = _
      rw [ih]
      simp [Batch.AddEvent, List.append_assoc]

theorem addEvents_timestamps (b : Batch) (items : List (Int × Log)) :
    (addEvents b items).logs.map InputLogEvent.timestamp =
      b.logs.map InputLogEvent.timestamp ++ items.map Prod.fst := by
  rw [addEvents_logs]
  simp [Function.comp]

/-- C10: `AddEvent` stamps the stored event with the wall-clock reading of
the append (`now`, milliseconds since the epoch), ignoring the timestamp
carried by the incoming log event, and increments the byte total by exactly
payload-byte-length + 28; consequently the stored timestamps of a batch
built by appends under a non-decreasing clock are non-decreasing in
insertion order. -/
theorem C10_addEvent_timestamps :
    (∀ (b : Batch) (now : Int) (l : Log),
      (b.AddEvent now l).logs =
          b.logs ++ [{ message := l.data, timestamp := now }] ∧
        (b.AddEvent now l).bytes =
          b.bytes + ((l.data.utf8ByteSize : Int) + 28) ∧
        ∀ t, b.AddEvent now { l with timestamp := t } = b.AddEvent now l) ∧
    (∀ (b : Batch) (items : List (Int × Log)),
      (addEvents b items).logs.map InputLogEvent.timestamp =
        b.logs.map InputLogEvent.timestamp ++ items.map Prod.fst) ∧
    (∀ (b : Batch) (items : List (Int × Log)),
      (b.logs.map InputLogEvent.timestamp ++
          items.map Prod.fst).Pairwise (· ≤ ·) →
      ((addEvents b items).logs.map
          InputLogEvent.timestamp).Pairwise (· ≤ ·)) := by
  refine ⟨fun b now l => ⟨rfl, rfl, fun t => rfl⟩,
    addEvents_timestamps, fun b items hsorted => ?_⟩
  rw [addEvents_timestamps]
  exact hsorted

/-! ### Witnesses -/

/-- A two-event batch for the witnesses: token `"W0"`, 58 accounted bytes. -/
def wBatch : Batch :=
  { groupName := "wg", streamName := "ws", token := "W0", bytes := 58,
    logs := [{ message := "u", timestamp := 1 },
             { message := "v", timestamp := 2 }] }

/-- Witness registry with the single container `"w"`. -/
def wReg : Registry := [("w", wBatch)]

/-- C1 witness: the token-chain theorem evaluated at concrete inputs — a
failed submission leaves the concrete registry untouched, a successful one
installs the returned token `"W1"`, an append keeps token `"W0"`, an attach
seeds the provisioned token `"WP"`, a fitting event leaves the live token
alone, and a sweep with a failing oracle keeps the batch present. -/
theorem C1_token_chain_witness :
    submitBatchForID noPut wReg "w" = some (wReg, false) ∧
    submitBatchForID (okPut "W1") wReg "w" =
      some (rinsert wReg "w"
        { groupName := "wg", streamName := "ws", token := "W1",
          bytes := 0, logs := [] }, true) ∧
    (wBatch.AddEvent 5 { id := "w", data := "z", timestamp := 9 }).token =
      wBatch.token ∧
    rlookup (HandleAttachEvent (some "WP") [] "w" "wg" "ws") "w" =
      some { groupName := "wg", streamName := "ws", token := "WP",
             bytes := 0, logs := [] } ∧
    ((wBatch.AddEvent 3 { id := "w", data := "z", timestamp := 9 }).token =
        wBatch.token ∨
      noPut wBatch.logs wBatch.groupName wBatch.streamName wBatch.token =
        some (wBatch.AddEvent 3
          { id := "w", data := "z", timestamp := 9 }).token) ∧
    (rlookup (sweepForOldBatches noPut wReg) "w").isSome := by
  refine ⟨?_, ?_, ?_, ?_, ?_, ?_⟩
  · exact (C1_token_chain.1 noPut wReg "w" wBatch rfl (by simp [wBatch])).1 rfl
  · exact (C1_token_chain.1 (okPut "W1") wReg "w" wBatch rfl
      (by simp [wBatch])).2 "W1" rfl
  · exact C1_token_chain.2.2.1 wBatch 5 { id := "w", data := "z", timestamp := 9 }
  · exact (C1_token_chain.2.2.2.1 (some "WP") [] "w" "wg" "ws").1 rfl
  · exact C1_token_chain.2.2.2.2.1 noPut 3 wReg
      (rinsert wReg "w" (wBatch.AddEvent 3 { id := "w", data := "z", timestamp := 9 }))
      { id := "w", data := "z", timestamp := 9 } wBatch
      (wBatch.AddEvent 3 { id := "w", data := "z", timestamp := 9 })
      rfl (by rfl) (by rw [rlookup_rinsert, if_pos rfl])
  · obtain ⟨b2, hb2, _⟩ := C1_token_chain.2.2.2.2.2 noPut wReg "w" wBatch
      (by simp [rkeys, wReg]) rfl
    rw [hb2]
    rfl

/-- C2 witness: the reachability theorem applied to the concrete state
reached from the empty registry by one attach — the installed batch is
within both bounds. -/
theorem C2_reachable_batches_bounded_witness :
    ({ groupName := "g2", streamName := "s2", token := "T2", bytes := 0,
       logs := [] } : Batch).logs.length ≤ 1000 ∧
      ({ groupName := "g2", streamName := "s2", token := "T2", bytes := 0,
         logs := [] } : Batch).bytes ≤ 32768 :=
  C2_reachable_batches_bounded
    (HandleAttachEvent (some "T2") [] "c2" "g2" "s2")
    (Relation.ReflTransGen.single (Step.attach (some "T2") [] "c2" "g2" "s2"))
    "c2" _ rfl

/-- C4 witness: flushing the concrete non-empty batch with an oracle that
returns `"W4"` installs the fresh empty batch carrying `"W4"`. -/
theorem C4_flush_success_witness :
    submitBatchForID (okPut "W4") [("w4", wBatch)] "w4" =
      some (rinsert [("w4", wBatch)] "w4"
        { groupName := "wg", streamName := "ws", token := "W4",
          bytes := 0, logs := [] }, true) :=
  ((C4_flush_success (okPut "W4") [("w4", wBatch)] "w4" wBatch rfl).2
    "W4" (by simp [wBatch]) rfl).1

/-- C5 witness: a failed submission for the concrete batch leaves the
registry untouched, and a sweep under an all-failing oracle is the
identity. -/
theorem C5_sweep_fail_no_mutation_witness :
    submitBatchForID noPut [("w5", wBatch)] "w5" =
        some ([("w5", wBatch)], false) ∧
      sweepForOldBatches noPut [("w5", wBatch)] = [("w5", wBatch)] := by
  have h := C5_sweep_fail_no_mutation noPut [("w5", wBatch)] "w5" wBatch rfl
    (by simp [wBatch]) rfl
  exact ⟨h.1, h.2 (fun _ _ _ _ => rfl)⟩

set_option maxRecDepth 8000 in
/-- C6 witness: the amended claim evaluated on the concrete full batch — the
failed event-triggered flush drops the event and leaves the registry
unchanged. -/
theorem C6_flush_fail_drops_event_witness :
    HandleLogEvent noPut 6 [("c", fullBatch)] smallLog =
      some [("c", fullBatch)] :=
  C6_flush_fail_drops_event noPut 6 [("c", fullBatch)] smallLog fullBatch
    rfl fullBatch_not_fits fullBatch_logs_ne_nil rfl

/-- C8 witness: detaching the registered container `"w8"` succeeds (no nil
dereference) and removes its entry, with a failing submission oracle. -/
theorem C8_detach_removes_entry_witness :
    HandleDetachEvent noPut [("w8", wBatch)] "w8" ≠ none ∧
      rlookup [] "w8" = none :=
  ⟨(C8_detach_removes_entry noPut [("w8", wBatch)] "w8" wBatch rfl).1,
    (C8_detach_removes_entry noPut [("w8", wBatch)] "w8" wBatch rfl).2 []
      (by rfl)⟩

/-- C9 witness: detaching with an empty registry takes the nil-dereference
branch, while detaching a registered container does not. -/
theorem C9_detach_unregistered_nil_deref_witness :
    HandleDetachEvent noPut [] "w9" = none ∧
      HandleDetachEvent noPut [("w9", wBatch)] "w9" ≠ none :=
  ⟨C9_detach_unregistered_nil_deref.1 noPut [] "w9" rfl,
    C9_detach_unregistered_nil_deref.2 noPut [("w9", wBatch)] "w9" wBatch rfl⟩

/-- C10 witness: the timestamping theorem at concrete inputs — appending two
events with clock readings 5 then 9 to the fresh batch stores timestamps
`[5, 9]` in non-decreasing order, and the stored timestamp ignores the
event's own timestamp field. -/
theorem C10_addEvent_timestamps_witness :
    (cFresh.AddEvent 5 { id := "c", data := "x", timestamp := 77 } =
        cFresh.AddEvent 5 { id := "c", data := "x", timestamp := 0 }) ∧
      ((addEvents cFresh
          [(5, { id := "c", data := "x", timestamp := 77 }),
           (9, { id := "c", data := "y", timestamp := 3 })]).logs.map
        InputLogEvent.timestamp).Pairwise (· ≤ ·) := by
  constructor
  · exact (C10_addEvent_timestamps.1 cFresh 5
      { id := "c", data := "x", timestamp := 0 }).2.2 77
  · exact C10_addEvent_timestamps.2.2 cFresh
      [(5, { id := "c", data := "x", timestamp := 77 }),
       (9, { id := "c", data := "y", timestamp := 3 })] (by decide)

end Logspout
